import Mathlib

/-!
# Verification of the apt-downgrade dependency resolution engine

Shallow embedding of the resolution engine of `desbma/apt-downgrade`
(`src/apt.rs` and `src/main.rs`) together with proofs about it.

Conventions:
* Rust `String` becomes `String` (or `List Char` for character-level work).
* Fallible code returns `Option`/`Except`; a Rust `panic!` is modelled by a
  dedicated outcome constructor where the distinction matters.
* Effectful collaborators (subprocess probes, the HTTP client, the on-disk
  cache) are passed in as explicit oracles / explicit state.
* `PackageVersion`'s `Ord` instance in both source files delegates to
  `deb_version::compare_versions`, a third-party crate whose code is not
  part of this repository; it is modelled from the spec (§4.1), as is the
  candidate aggregator of §4.2, which is not present under `src/`.

The file is laid out as definitions first, then the theorems about them.
-/

namespace AptDowngrade

/-! ## Definitions: comparator toolbox -/

/-- A comparator that is oriented, transitive on `.lt` and whose `.eq` is a
left congruence. -/
def IsGoodCmp {α : Type _} (cmp : α → α → Ordering) : Prop :=
  (∀ x y, cmp x y = (cmp y x).swap) ∧
  (∀ x y z, cmp x y = .lt → cmp y z = .lt → cmp x z = .lt) ∧
  (∀ x y z o, cmp x y = .eq → cmp y z = o → cmp x z = o)

/-- Three-way comparison of naturals. -/
def natCmp (m n : Nat) : Ordering :=
  if m < n then .lt else if m = n then .eq else .gt

/-- Compare `[]` against a list, padding the left side with `pad`. -/
def lexPadNil {α : Type _} (f : α → α → Ordering) (pad : α) : List α → Ordering
  | [] => .eq
  | b :: bs => (f pad b).then (lexPadNil f pad bs)

/-- Elementwise list comparison, padding the shorter list with `pad` (this
models Debian's "a shorter string's missing run is treated as empty" rule,
where the padding element stands for the end-of-run marker). -/
def lexPadCmp {α : Type _} (f : α → α → Ordering) (pad : α) : List α → List α → Ordering
  | [], l => lexPadNil f pad l
  | a :: as, [] => (f a pad).then (lexPadCmp f pad as [])
  | a :: as, b :: bs => (f a b).then (lexPadCmp f pad as bs)

/-! ## Definitions: the Debian version comparator (modelled from §4.1) -/

/-- Modelled from the spec: the character ordering used inside a non-digit
run, `'~' < end-of-run < (any letter) < (any other character, in ASCII
order)`.  The end-of-run marker is represented by the key `1`, which no
character maps to. -/
def charKey (c : Char) : Nat :=
  if c = '~' then 0 else if c.isAlpha then c.toNat + 2 else c.toNat + 258

/-- Modelled from the spec: character-by-character comparison of two
non-digit runs; a run that ends early continues with the end-of-run marker
(key `1`). -/
def compareAlpha (a b : List Char) : Ordering :=
  lexPadCmp natCmp 1 (a.map charKey) (b.map charKey)

/-- Comparison of one (non-digit run, numeric run) block. -/
def pairCmp (p q : List Char × Nat) : Ordering :=
  (compareAlpha p.1 q.1).then (natCmp p.2 q.2)

/-- Modelled from the spec: alternating run comparison; a shorter version
string's missing runs are treated as the empty non-digit run and the number
zero. -/
def compareParsed (a b : List (List Char × Nat)) : Ordering :=
  lexPadCmp pairCmp ([], 0) a b

/-- Numeric value of a digit run (leading zeros ignored by construction). -/
def toNatDigits (l : List Char) : Nat :=
  l.foldl (fun acc c => acc * 10 + (c.toNat - 48)) 0

/-- Fueled worker for `parseVer`; the fuel only serves to make the recursion
structural, `parseVer` always supplies enough. -/
def parseVerF : Nat → List Char → List (List Char × Nat)
  | 0, _ => []
  | _, [] => []
  | fuel + 1, s =>
    let nd := s.takeWhile (fun c => !c.isDigit)
    let r1 := s.dropWhile (fun c => !c.isDigit)
    (nd, toNatDigits (r1.takeWhile Char.isDigit)) ::
      parseVerF fuel (r1.dropWhile Char.isDigit)

/-- Modelled from the spec: split a version-part into its alternating
maximal (non-digit run, digit run) blocks. -/
def parseVer (s : List Char) : List (List Char × Nat) :=
  parseVerF (s.length + 1) s

/-- Run-comparison algorithm of §4.1 step 3 on two version parts. -/
def compareRuns (a b : List Char) : Ordering :=
  compareParsed (parseVer a) (parseVer b)

/-- Modelled from the spec: numeric epoch before the first `:` (missing
epoch defaults to `0`). -/
def epochOf (s : List Char) : Nat :=
  if s.contains ':' then toNatDigits (s.takeWhile (fun c => c != ':')) else 0

/-- Everything after the first `:` (the whole string when there is none). -/
def afterEpoch (s : List Char) : List Char :=
  if s.contains ':' then (s.dropWhile (fun c => c != ':')).tail else s

/-- Modelled from the spec: the part before the last `-` (the whole string
when there is no `-`). -/
def upstreamOf (s : List Char) : List Char :=
  if s.contains '-' then ((s.reverse.dropWhile (fun c => c != '-')).tail).reverse else s

/-- Modelled from the spec: the revision after the last `-` (empty when
there is no `-`). -/
def revisionOf (s : List Char) : List Char :=
  if s.contains '-' then (s.reverse.takeWhile (fun c => c != '-')).reverse else []

/-- Epoch comparison of §4.1 step 1. -/
def cmpEpoch (a b : String) : Ordering :=
  natCmp (epochOf a.data) (epochOf b.data)

/-- Upstream-part comparison of §4.1 step 2. -/
def cmpUpstream (a b : String) : Ordering :=
  compareRuns (upstreamOf (afterEpoch a.data)) (upstreamOf (afterEpoch b.data))

/-- Revision-part comparison of §4.1 step 2. -/
def cmpRevision (a b : String) : Ordering :=
  compareRuns (revisionOf (afterEpoch a.data)) (revisionOf (afterEpoch b.data))

/-- Modelled from the spec: Debian version comparison
(`deb_version::compare_versions`): epoch first, then upstream part, then
revision part. -/
def compare_versions (a b : String) : Ordering :=
  ((cmpEpoch a b).then (cmpUpstream a b)).then (cmpRevision a b)

/-! ## Definitions: string helpers shared by the embedded parsers -/

/-- Rust `str::split(sep)`: always yields at least one (possibly empty)
piece. -/
def splitOnChar (sep : Char) : List Char → List (List Char)
  | [] => [[]]
  | c :: cs =>
    let r := splitOnChar sep cs
    if c = sep then [] :: r else (c :: r.headD []) :: r.tail

/-- Rust `str.rsplit(':').next().unwrap()`: the text after the last `:`
(the whole string when there is no `:`). -/
def afterLastColon (l : List Char) : List Char :=
  (l.reverse.takeWhile (fun c => c != ':')).reverse

/-- `str::trim_end` (whitespace). -/
def trimRightChars (l : List Char) : List Char :=
  (l.reverse.dropWhile Char.isWhitespace).reverse

/-- Rust `str::replace("%3a", ":")`. -/
def replacePercent3a : List Char → List Char
  | '%' :: '3' :: 'a' :: rest => ':' :: replacePercent3a rest
  | c :: rest => c :: replacePercent3a rest
  | [] => []

/-! ## Definitions: `src/apt.rs` data model and operations -/

namespace Apt

/-- `apt.rs` `PackageVersion`: the derived `PartialEq` compares the raw
strings; the manual `Ord` delegates to `compare_versions`. -/
structure PackageVersion where
  string : String
deriving DecidableEq

/-- `apt.rs` `Package`; the derived `PartialEq` is structural over all
fields. -/
structure Package where
  name : String
  version : PackageVersion
  arch : Option String
  filepath : Option String
  url : Option String
deriving DecidableEq

/-- `apt.rs` `PackageVersionRelation` (the `StriclySuperior` typo is the
source's). -/
inductive PackageVersionRelation
  | any
  | strictlyInferior
  | inferiorOrEqual
  | equal
  | superiorOrEqual
  | striclySuperior
deriving DecidableEq

/-- `apt.rs` `PackageVersionConstaint` (typo from the source). -/
structure PackageVersionConstaint where
  version : PackageVersion
  version_relation : PackageVersionRelation
deriving DecidableEq

/-- `apt.rs` `PackageDependency`. -/
structure PackageDependency where
  package_name : String
  version_constraints : List PackageVersionConstaint
deriving DecidableEq

/-- One filter predicate of `resolve_dependency`'s chained closures.  Note
that `Equal` uses the derived `PartialEq`, i.e. raw string equality, while
the four inequalities go through the `Ord` instance, i.e. the Debian
comparator. -/
def satisfies (constraint : PackageVersionConstaint) (p : Package) : Bool :=
  match constraint.version_relation with
  | .any => true
  | .strictlyInferior =>
    compare_versions p.version.string constraint.version.string == .lt
  | .inferiorOrEqual =>
    compare_versions p.version.string constraint.version.string != .gt
  | .equal => p.version == constraint.version
  | .superiorOrEqual =>
    compare_versions p.version.string constraint.version.string != .lt
  | .striclySuperior =>
    compare_versions p.version.string constraint.version.string == .gt

/-- The iterator-filter chain of `resolve_dependency` lines 333–354: one
`filter` per constraint, in order. -/
def matching_candidates (dependency : PackageDependency) (candidates : List Package) :
    List Package :=
  dependency.version_constraints.foldl
    (fun acc constraint => acc.filter (fun p => satisfies constraint p)) candidates

/-- A candidate satisfying every constraint of the dependency. -/
def satisfiesAll (dependency : PackageDependency) (p : Package) : Bool :=
  dependency.version_constraints.all (fun constraint => satisfies constraint p)

/-- `apt.rs` `resolve_dependency` (lines 328–366): collect the filtered
candidates, return the installed package when it is among them, otherwise
the first match. -/
def resolve_dependency (dependency : PackageDependency) (candidates : List Package)
    (installed_package : Option Package) : Option Package :=
  let m := matching_candidates dependency candidates
  match installed_package with
  | some ip => if ip ∈ m then some ip else m.head?
  | none => m.head?

/-! ### `download_package` (apt.rs lines 189–227): the artifact cache

The filesystem and the HTTP client are modelled explicitly: `DlState.files`
is the set of filenames present in the cache directory (paths relative to
the cache root), `DlState.fetches` counts the network GETs performed so far,
and `net url = true` models a GET of `url` succeeding (`false` models a
transport error or non-success status, which the code propagates).  The
returned operation trace records, in order, the effects performed. -/

/-- The observable cache-directory state. -/
structure DlState where
  files : List String
  fetches : Nat
deriving DecidableEq

/-- One observable effect of `download_package`. -/
inductive DlOp
  | fetchUrl (url : String)
  | writeTemp (name : String)
  | renameTemp (src : String) (dst : String)
deriving DecidableEq

/-- `url.rsplit('/').next()`: the last path segment of a URL. -/
def lastSegment (url : String) : String :=
  String.mk ((splitOnChar '/' url.data).getLastD [])

/-- `apt.rs` `download_package`: cache hit returns the existing file with no
network call; a miss fetches, streams to a `.tmp` file and renames it into
place; `none` models the error/panic paths (missing URL, failed GET). -/
def download_package (net : String → Bool) (st : DlState) (package : Package) :
    Option (DlState × Package × List DlOp) :=
  match package.url with
  | none => none
  | some url =>
    let filename := lastSegment url
    if filename ∈ st.files then
      some (st, { package with filepath := some filename }, [])
    else if net url then
      some ({ files := filename :: st.files, fetches := st.fetches + 1 },
        { package with filepath := some filename },
        [.fetchUrl url, .writeTemp (filename ++ ".tmp"),
          .renameTemp (filename ++ ".tmp") filename])
    else none

/-! ### `get_dependencies` (apt.rs lines 230–325): the `Depends:` parser

Only the pure parsing of one `Depends:` line is embedded; fetching the line
itself goes through `apt-cache` (an external collaborator).  A Rust `panic!`
(or an out-of-bounds slice, which also aborts) is the `panicked` outcome;
an `Err` return is `err`. -/

/-- Parse outcome separating the ordinary error channel from a panic. -/
inductive ParseOutcome (α : Type _)
  | ok (val : α)
  | err
  | panicked
deriving DecidableEq

/-- The token list of one dependency clause:
`package_desc.split('|').next().trim_end().split(' ')`. -/
def clauseTokens (clause : List Char) : List (List Char) :=
  splitOnChar ' ' (trimRightChars ((splitOnChar '|' clause).headD []))

/-- The `match &r[1..]` relation decode of lines 288–297; `none` is the
`panic!("Unexpected version relation")` arm. -/
def relTok (s : List Char) : Option PackageVersionRelation :=
  if s = ['<', '<'] then some .strictlyInferior
  else if s = ['<', '='] then some .inferiorOrEqual
  else if s = ['='] then some .equal
  else if s = ['>', '='] then some .superiorOrEqual
  else if s = ['>', '>'] then some .striclySuperior
  else none

/-- Parse one comma-separated clause of a `Depends:` line. -/
def parseClause (clause : List Char) : ParseOutcome PackageDependency :=
  let toks := clauseTokens clause
  let nameTok := toks.headD []
  match toks[1]? with
  | none => .ok ⟨String.mk nameTok, [⟨⟨""⟩, .any⟩]⟩
  | some r =>
    match relTok r.tail with
    | none => .panicked
    | some rel =>
      match toks[2]? with
      | none => .err
      | some raw =>
        if raw = [] then .panicked
        else .ok ⟨String.mk nameTok,
          [⟨⟨String.mk (afterLastColon raw.dropLast)⟩, rel⟩]⟩

/-- Sequential parse of all clauses, propagating the first failure. -/
def parseClauses : List (List Char) → ParseOutcome (List PackageDependency)
  | [] => .ok []
  | c :: cs =>
    match parseClause c with
    | .panicked => .panicked
    | .err => .err
    | .ok d =>
      match parseClauses cs with
      | .panicked => .panicked
      | .err => .err
      | .ok ds => .ok (d :: ds)

/-- `apt.rs` `get_dependencies` applied to the content of a `Depends:` line:
split on `,`, trim each clause on the left, parse each clause. -/
def get_dependencies (depends_line : String) : ParseOutcome (List PackageDependency) :=
  parseClauses ((splitOnChar ',' depends_line.data).map
    (fun c => c.dropWhile Char.isWhitespace))

/-- The version extraction of `get_cache_package_versions`
(apt.rs lines 461–477): second `_`-token from the right, `%3a` unescaped,
then everything up to the last `:` stripped. -/
def cache_version_of_filename (filename : String) : Option String :=
  match (splitOnChar '_' filename.data).reverse with
  | _ :: vtok :: _ => some (String.mk (afterLastColon (replacePercent3a vtok)))
  | _ => none

/-! ### The candidate aggregator -/

/-- Insert a package into a version-descending list. -/
def insertDescByVersion (p : Package) : List Package → List Package
  | [] => [p]
  | q :: qs =>
    if compare_versions q.version.string p.version.string == .lt then p :: q :: qs
    else q :: insertDescByVersion p qs

/-- Sort a candidate list by version, descending. -/
def sortDescByVersion (l : List Package) : List Package :=
  l.foldr insertDescByVersion []

/-- Modelled from the spec: the candidate aggregator of §4.2.  It merges the
local cache listing with the remote pool listing (local entries win on
version ties), sorted by version descending; when the remote source fails
(network error, non-2xx status, or unexpected page structure — the `Except`
error), it degrades gracefully and returns the local-only candidates rather
than failing the whole call.  This aggregator is not present under `src/`:
`main.rs`'s `resolve_version` still carries a `TODO add remote versions`,
and `apt.rs`'s `get_remote_package_versions` only produces the remote side. -/
def get_candidates (local_packages : List Package)
    (remote : Except String (List Package)) : List Package :=
  match remote with
  | .error _ => local_packages
  | .ok remote_packages =>
    sortDescByVersion (local_packages ++
      remote_packages.filter
        (fun r => !(local_packages.any (fun l => l.version == r.version))))

end Apt

/-! ## Definitions: `src/main.rs` worklist engine

`main.rs` carries its own `Package` (name and version only) and a
single-relation `PackageDependency`.  The effectful collaborators of the
resolution loop are passed in as oracles, fixed for the run:
`installed name` is `get_installed_version`, `cache_versions name` is
`get_cache_package_versions`, and `deps package` is `get_dependencies`.
The `panic!("Unable to resolve dependency ...")` abort is the `fatal`
result; the loop is driven by fuel, with `outOfFuel` marking exhaustion. -/

namespace Cli

/-- `main.rs` `Package`; the derived `PartialEq` compares name and raw
version string. -/
structure Package where
  name : String
  version : String
deriving DecidableEq

/-- `main.rs` `PackageDependency`: one package and one version relation. -/
structure PackageDependency where
  package : Package
  version_relation : Apt.PackageVersionRelation
deriving DecidableEq

/-- `main.rs` `resolve_version` (lines 242–307), with the candidate list
(the local cache versions) lifted to a parameter.  Note the `Equal` arm uses
the derived `PartialEq` (string equality) and ignores the installed version,
while the four inequality arms prefer a satisfying installed version and use
the Debian comparator. -/
def resolve_version (version_candidates : List String) (dependency : PackageDependency)
    (installed_version : Option String) : Option String :=
  match dependency.version_relation with
  | .any =>
    match installed_version with
    | some v => some v
    | none => version_candidates.head?
  | .strictlyInferior =>
    match installed_version with
    | some iv =>
      if compare_versions iv dependency.package.version = .lt then some iv
      else version_candidates.find?
        (fun v => compare_versions v dependency.package.version == .lt)
    | none => version_candidates.find?
        (fun v => compare_versions v dependency.package.version == .lt)
  | .inferiorOrEqual =>
    match installed_version with
    | some iv =>
      if compare_versions iv dependency.package.version ≠ .gt then some iv
      else version_candidates.find?
        (fun v => compare_versions v dependency.package.version != .gt)
    | none => version_candidates.find?
        (fun v => compare_versions v dependency.package.version != .gt)
  | .equal => version_candidates.find? (fun v => v == dependency.package.version)
  | .superiorOrEqual =>
    match installed_version with
    | some iv =>
      if compare_versions iv dependency.package.version ≠ .lt then some iv
      else version_candidates.find?
        (fun v => compare_versions v dependency.package.version != .lt)
    | none => version_candidates.find?
        (fun v => compare_versions v dependency.package.version != .lt)
  | .striclySuperior =>
    match installed_version with
    | some iv =>
      if compare_versions iv dependency.package.version = .gt then some iv
      else version_candidates.find?
        (fun v => compare_versions v dependency.package.version == .gt)
    | none => version_candidates.find?
        (fun v => compare_versions v dependency.package.version == .gt)

/-- The loop state of `main`: the `to_resolve` FIFO and the `to_install`
ordered install set. -/
structure WState where
  to_resolve : List PackageDependency
  to_install : List Package
deriving DecidableEq

/-- The observable outcome of the resolution loop.  `fatal` carries only the
offending dependency: no partial install set is produced on abort. -/
inductive RunResult
  | done (install_set : List Package)
  | fatal (dependency : PackageDependency)
  | outOfFuel (st : WState)
deriving DecidableEq

/-- The resolution loop of `main` (main.rs lines 386–418): pop the front
dependency, resolve it, skip it when already queued for install or already
installed at the resolved version, otherwise append it and enqueue its
dependencies. -/
def runWorklist (installed : String → Option String)
    (cache_versions : String → List String)
    (deps : Package → List PackageDependency) : Nat → WState → RunResult
  | 0, st => .outOfFuel st
  | fuel + 1, st =>
    match st.to_resolve with
    | [] => .done st.to_install
    | dependency :: rest =>
      match resolve_version (cache_versions dependency.package.name) dependency
          (installed dependency.package.name) with
      | none => .fatal dependency
      | some resolved_version =>
        let package : Package := ⟨dependency.package.name, resolved_version⟩
        if package ∈ st.to_install then
          runWorklist installed cache_versions deps fuel ⟨rest, st.to_install⟩
        else if installed dependency.package.name = some resolved_version then
          runWorklist installed cache_versions deps fuel ⟨rest, st.to_install⟩
        else
          runWorklist installed cache_versions deps fuel
            ⟨rest ++ deps package, st.to_install ++ [package]⟩

end Cli

/-! ## Definitions: concrete demonstration data -/

/-- Candidate `2.0` of the §8 selector examples. -/
def pkg20 : Apt.Package := ⟨"pkg", ⟨"2.0"⟩, none, none, none⟩

/-- Candidate `1.5` of the §8 selector examples. -/
def pkg15 : Apt.Package := ⟨"pkg", ⟨"1.5"⟩, none, none, none⟩

/-- Candidate `1.0` of the §8 selector examples. -/
def pkg10 : Apt.Package := ⟨"pkg", ⟨"1.0"⟩, none, none, none⟩

/-- A candidate with version `1.9`: comparator-equal to `1.09` but not
string-equal. -/
def pkg19 : Apt.Package := ⟨"pkg", ⟨"1.9"⟩, none, none, none⟩

/-- The descending candidate list `[2.0, 1.5, 1.0]` of §8. -/
def demoCands : List Apt.Package := [pkg20, pkg15, pkg10]

/-- A dependency with the `Any` relation. -/
def anyDep : Apt.PackageDependency := ⟨"pkg", [⟨⟨""⟩, .any⟩]⟩

/-- A dependency with relation `LT 1.5`. -/
def ltDep : Apt.PackageDependency := ⟨"pkg", [⟨⟨"1.5"⟩, .strictlyInferior⟩]⟩

/-- A dependency with relation `EQ 9.9` (unsatisfiable over `demoCands`). -/
def eqDep99 : Apt.PackageDependency := ⟨"pkg", [⟨⟨"9.9"⟩, .equal⟩]⟩

/-- A dependency with relation `EQ 1.09`. -/
def eqDep109 : Apt.PackageDependency := ⟨"pkg", [⟨⟨"1.09"⟩, .equal⟩]⟩

/-- An installed-state oracle with nothing installed. -/
def noInstalled : String → Option String := fun _ => none

/-- A local-cache oracle with no cached versions. -/
def noCands : String → List String := fun _ => []

/-- A dependency oracle extracting no dependencies. -/
def noDeps : Cli.Package → List Cli.PackageDependency := fun _ => []

/-- The synthetic root dependency `pkg = 9.9`. -/
def rootDep : Cli.PackageDependency := ⟨⟨"pkg", "9.9"⟩, .equal⟩

/-- Diamond node `A`, version `1`. -/
def pA : Cli.Package := ⟨"A", "1"⟩

/-- Diamond node `B`, version `1`. -/
def pB : Cli.Package := ⟨"B", "1"⟩

/-- Diamond node `C`, version `1`. -/
def pC : Cli.Package := ⟨"C", "1"⟩

/-- Diamond node `D`, version `1`. -/
def pD : Cli.Package := ⟨"D", "1"⟩

/-- A dependency on `name = 1`. -/
def depOn (name : String) : Cli.PackageDependency := ⟨⟨name, "1"⟩, .equal⟩

/-- Local cache carrying version `1` for every name. -/
def dCands : String → List String := fun _ => ["1"]

/-- Diamond dependency graph: `A → B, C`; `B → D`; `C → D`. -/
def dDeps : Cli.Package → List Cli.PackageDependency := fun p =>
  if p.name = "A" then [depOn "B", depOn "C"]
  else if p.name = "B" then [depOn "D"]
  else if p.name = "C" then [depOn "D"]
  else []

/-- Installed-state oracle where only `B` is installed, at version `1`. -/
def iInstB : String → Option String := fun n => if n = "B" then some "1" else none

/-- A package carrying only a source URL, for the artifact-cache scenarios. -/
def demoPkgU : Apt.Package := ⟨"p", ⟨"1.0"⟩, none, none, some "http://h/p_1.0_amd64.deb"⟩

/-! ## Theorems: comparator toolbox -/

theorem good_refl {α : Type _} {cmp : α → α → Ordering} (h : IsGoodCmp cmp) (x : α) :
    cmp x x = .eq := by
  have h1 := h.1 x x
  cases hv : cmp x x
  · rw [hv] at h1; exact absurd h1 (by decide)
  · rfl
  · rw [hv] at h1; exact absurd h1 (by decide)

theorem good_eq_right {α : Type _} {cmp : α → α → Ordering} (h : IsGoodCmp cmp)
    {x y z : α} {o : Ordering} (h1 : cmp x y = o) (h2 : cmp y z = .eq) : cmp x z = o := by
  have hzy : cmp z y = .eq := by rw [h.1 z y, h2]; rfl
  have hyx : cmp y x = o.swap := by rw [h.1 y x, h1]
  have hzx := h.2.2 z y x o.swap hzy hyx
  rw [h.1 x z, hzx, Ordering.swap_swap]

/-- Lexicographic composition of two good comparators is good. -/
theorem good_then {α : Type _} {f g : α → α → Ordering}
    (hf : IsGoodCmp f) (hg : IsGoodCmp g) :
    IsGoodCmp (fun x y => (f x y).then (g x y)) := by
  refine ⟨?_, ?_, ?_⟩
  · intro x y
    simp only
    rw [Ordering.swap_then, hf.1 x y, hg.1 x y]
  · intro x y z h1 h2
    simp only at h1 h2 ⊢
    rcases Ordering.then_eq_lt.1 h1 with k1 | ⟨k1, l1⟩ <;>
      rcases Ordering.then_eq_lt.1 h2 with k2 | ⟨k2, l2⟩
    · exact Ordering.then_eq_lt.2 (Or.inl (hf.2.1 _ _ _ k1 k2))
    · exact Ordering.then_eq_lt.2 (Or.inl (good_eq_right hf k1 k2))
    · exact Ordering.then_eq_lt.2 (Or.inl (hf.2.2 _ _ _ _ k1 k2))
    · exact Ordering.then_eq_lt.2 (Or.inr ⟨hf.2.2 _ _ _ _ k1 k2, hg.2.1 _ _ _ l1 l2⟩)
  · intro x y z o h1 h2
    simp only at h1 h2 ⊢
    obtain ⟨k1, l1⟩ := Ordering.then_eq_eq.1 h1
    have e1 : f x z = f y z := hf.2.2 x y z _ k1 rfl
    have e2 : g x z = g y z := hg.2.2 x y z _ l1 rfl
    rw [e1, e2]; exact h2

theorem good_pullback {α β : Type _} {f : β → β → Ordering} (hf : IsGoodCmp f) (k : α → β) :
    IsGoodCmp (fun x y => f (k x) (k y)) :=
  ⟨fun x y => hf.1 (k x) (k y), fun x y z => hf.2.1 (k x) (k y) (k z),
   fun x y z o => hf.2.2 (k x) (k y) (k z) o⟩

theorem natCmp_eq_lt {m n : Nat} : natCmp m n = .lt ↔ m < n := by
  constructor
  · intro h
    unfold natCmp at h
    split_ifs at h with h1 h2
    exact h1
  · intro h
    unfold natCmp
    simp [h]

theorem natCmp_eq_eq {m n : Nat} : natCmp m n = .eq ↔ m = n := by
  constructor
  · intro h
    unfold natCmp at h
    split_ifs at h with h1 h2
    exact h2
  · intro h
    unfold natCmp
    simp [h]

theorem natCmp_eq_gt {m n : Nat} : natCmp m n = .gt ↔ n < m := by
  constructor
  · intro h
    unfold natCmp at h
    split_ifs at h with h1 h2
    omega
  · intro h
    unfold natCmp
    have h1 : ¬ m < n := by omega
    have h2 : ¬ m = n := by omega
    simp [h1, h2]

theorem natCmp_good : IsGoodCmp natCmp := by
  refine ⟨?_, ?_, ?_⟩
  · intro x y
    rcases Nat.lt_trichotomy x y with h | h | h
    · rw [natCmp_eq_lt.2 h, natCmp_eq_gt.2 h]; rfl
    · subst h
      rw [natCmp_eq_eq.2 rfl]; rfl
    · rw [natCmp_eq_gt.2 h, natCmp_eq_lt.2 h]; rfl
  · intro x y z h1 h2
    exact natCmp_eq_lt.2 (Nat.lt_trans (natCmp_eq_lt.1 h1) (natCmp_eq_lt.1 h2))
  · intro x y z o h1 h2
    have hxy : x = y := natCmp_eq_eq.1 h1
    subst hxy
    exact h2

theorem lexPadCmp_unfold {α : Type _} (f : α → α → Ordering) (pad : α)
    (hpad : f pad pad = .eq) (a b : List α) :
    lexPadCmp f pad a b =
      (f (a.headD pad) (b.headD pad)).then (lexPadCmp f pad a.tail b.tail) := by
  cases a <;> cases b <;> simp [lexPadCmp, lexPadNil, hpad, Ordering.then]

theorem lexPadCmp_symm_aux {α : Type _} {f : α → α → Ordering} {pad : α}
    (hf : IsGoodCmp f) (hpad : f pad pad = .eq) :
    ∀ n a b, a.length + b.length ≤ n →
      lexPadCmp f pad a b = (lexPadCmp f pad b a).swap := by
  intro n
  induction n with
  | zero =>
    intro a b h
    have ha : a = [] := List.length_eq_zero.1 (by omega)
    have hb : b = [] := List.length_eq_zero.1 (by omega)
    subst ha; subst hb
    rfl
  | succ n ih =>
    intro a b h
    have hlen : a.tail.length + b.tail.length ≤ n := by
      have ta := List.length_tail a
      have tb := List.length_tail b
      omega
    rw [lexPadCmp_unfold f pad hpad a b, lexPadCmp_unfold f pad hpad b a,
      Ordering.swap_then, hf.1 (a.headD pad) (b.headD pad), ih _ _ hlen]

theorem lexPadCmp_lt_trans_aux {α : Type _} {f : α → α → Ordering} {pad : α}
    (hf : IsGoodCmp f) (hpad : f pad pad = .eq) :
    ∀ n a b c, a.length + b.length + c.length ≤ n →
      lexPadCmp f pad a b = .lt → lexPadCmp f pad b c = .lt →
      lexPadCmp f pad a c = .lt := by
  intro n
  induction n with
  | zero =>
    intro a b c h h1 _
    have ha : a = [] := List.length_eq_zero.1 (by omega)
    have hb : b = [] := List.length_eq_zero.1 (by omega)
    subst ha; subst hb
    exact absurd h1 (by simp [lexPadCmp, lexPadNil])
  | succ n ih =>
    intro a b c h h1 h2
    have hlen : a.tail.length + b.tail.length + c.tail.length ≤ n := by
      have ta := List.length_tail a
      have tb := List.length_tail b
      have tc := List.length_tail c
      omega
    rw [lexPadCmp_unfold f pad hpad] at h1 h2 ⊢
    rcases Ordering.then_eq_lt.1 h1 with k1 | ⟨k1, l1⟩ <;>
      rcases Ordering.then_eq_lt.1 h2 with k2 | ⟨k2, l2⟩
    · exact Ordering.then_eq_lt.2 (Or.inl (hf.2.1 _ _ _ k1 k2))
    · exact Ordering.then_eq_lt.2 (Or.inl (good_eq_right hf k1 k2))
    · exact Ordering.then_eq_lt.2 (Or.inl (hf.2.2 _ _ _ _ k1 k2))
    · exact Ordering.then_eq_lt.2
        (Or.inr ⟨hf.2.2 _ _ _ _ k1 k2, ih _ _ _ hlen l1 l2⟩)

theorem lexPadCmp_eq_trans_aux {α : Type _} {f : α → α → Ordering} {pad : α}
    (hf : IsGoodCmp f) (hpad : f pad pad = .eq) :
    ∀ n a b c o, a.length + b.length + c.length ≤ n →
      lexPadCmp f pad a b = .eq → lexPadCmp f pad b c = o →
      lexPadCmp f pad a c = o := by
  intro n
  induction n with
  | zero =>
    intro a b c o h _ h2
    have ha : a = [] := List.length_eq_zero.1 (by omega)
    have hb : b = [] := List.length_eq_zero.1 (by omega)
    subst ha; subst hb
    exact h2
  | succ n ih =>
    intro a b c o h h1 h2
    have hlen : a.tail.length + b.tail.length + c.tail.length ≤ n := by
      have ta := List.length_tail a
      have tb := List.length_tail b
      have tc := List.length_tail c
      omega
    rw [lexPadCmp_unfold f pad hpad] at h1 h2 ⊢
    obtain ⟨k1, l1⟩ := Ordering.then_eq_eq.1 h1
    have e1 : f (a.headD pad) (c.headD pad) = f (b.headD pad) (c.headD pad) :=
      hf.2.2 _ _ _ _ k1 rfl
    have e2 : lexPadCmp f pad a.tail c.tail = lexPadCmp f pad b.tail c.tail :=
      ih _ _ _ _ hlen l1 rfl
    rw [e1, e2]; exact h2

theorem lexPadCmp_good {α : Type _} {f : α → α → Ordering} {pad : α}
    (hf : IsGoodCmp f) (hpad : f pad pad = .eq) :
    IsGoodCmp (lexPadCmp f pad) :=
  ⟨fun a b => lexPadCmp_symm_aux hf hpad (a.length + b.length) a b le_rfl,
   fun a b c => lexPadCmp_lt_trans_aux hf hpad (a.length + b.length + c.length) a b c le_rfl,
   fun a b c o => lexPadCmp_eq_trans_aux hf hpad (a.length + b.length + c.length) a b c o le_rfl⟩

/-! ## Theorems: the Debian comparator is a total preorder -/

theorem compareAlpha_good : IsGoodCmp compareAlpha :=
  good_pullback (lexPadCmp_good natCmp_good (by decide)) (List.map charKey)

theorem pairCmp_good : IsGoodCmp pairCmp :=
  good_then (good_pullback compareAlpha_good Prod.fst)
    (good_pullback (good_pullback natCmp_good id) Prod.snd)

theorem compareParsed_good : IsGoodCmp compareParsed :=
  lexPadCmp_good pairCmp_good (by decide)

theorem compareRuns_good : IsGoodCmp compareRuns :=
  good_pullback compareParsed_good parseVer

theorem cmpEpoch_good : IsGoodCmp cmpEpoch :=
  good_pullback natCmp_good (fun s : String => epochOf s.data)

theorem cmpUpstream_good : IsGoodCmp cmpUpstream :=
  good_pullback compareRuns_good (fun s : String => upstreamOf (afterEpoch s.data))

theorem cmpRevision_good : IsGoodCmp cmpRevision :=
  good_pullback compareRuns_good (fun s : String => revisionOf (afterEpoch s.data))

theorem compare_versions_good : IsGoodCmp compare_versions :=
  good_then (good_then cmpEpoch_good cmpUpstream_good) cmpRevision_good

/-! ## Theorems: string helpers -/

theorem dropWhile_head_not {α : Type _} (p : α → Bool) (l : List α) (d : α) (ds : List α)
    (h : l.dropWhile p = d :: ds) : p d = false := by
  induction l with
  | nil => simp at h
  | cons a l ih =>
    rw [List.dropWhile_cons] at h
    by_cases hp : p a
    · rw [if_pos hp] at h; exact ih h
    · rw [if_neg hp] at h
      obtain ⟨rfl, rfl⟩ := List.cons.inj h
      simpa using hp

theorem afterLastColon_no_colon (l : List Char) : ':' ∉ afterLastColon l := by
  intro hmem
  unfold afterLastColon at hmem
  rw [List.mem_reverse] at hmem
  have := List.mem_takeWhile_imp hmem
  simp at this

theorem afterLastColon_split (l : List Char) (h : ':' ∈ l) :
    ∃ pre, l = pre ++ ':' :: afterLastColon l := by
  have hsplit := List.takeWhile_append_dropWhile (p := fun c => c != ':') (l := l.reverse)
  have hne : l.reverse.dropWhile (fun c => c != ':') ≠ [] := by
    intro hnil
    rw [List.dropWhile_eq_nil_iff] at hnil
    have := hnil ':' (List.mem_reverse.2 h)
    simp at this
  obtain ⟨d, ds, hd⟩ := List.exists_cons_of_ne_nil hne
  have hdcolon : d = ':' := by
    have := dropWhile_head_not (fun c => c != ':') l.reverse d ds hd
    simpa using this
  subst hdcolon
  refine ⟨ds.reverse, ?_⟩
  have hrev : l.reverse = l.reverse.takeWhile (fun c => c != ':') ++ ':' :: ds := by
    rw [← hd, hsplit]
  unfold afterLastColon
  conv_lhs => rw [← l.reverse_reverse, hrev]
  simp

/-! ## Theorems: the dependency selector -/

namespace Apt

theorem resolve_dependency_none (dep : PackageDependency) (cands : List Package) :
    resolve_dependency dep cands none = (matching_candidates dep cands).head? := rfl

theorem resolve_dependency_some (dep : PackageDependency) (cands : List Package) (ip : Package) :
    resolve_dependency dep cands (some ip) =
      if ip ∈ matching_candidates dep cands then some ip
      else (matching_candidates dep cands).head? := rfl

theorem matching_candidates_eq (dep : PackageDependency) (cands : List Package) :
    matching_candidates dep cands = cands.filter (satisfiesAll dep) := by
  unfold matching_candidates satisfiesAll
  generalize dep.version_constraints = cs
  induction cs generalizing cands with
  | nil => simp
  | cons c cs ih =>
    rw [List.foldl_cons, ih, List.filter_filter]
    simp [Bool.and_comm]

theorem head?_filter_eq_find? {α : Type _} (p : α → Bool) (l : List α) :
    (l.filter p).head? = l.find? p := by
  induction l with
  | nil => rfl
  | cons a l ih =>
    by_cases h : p a <;> simp [List.filter_cons, List.find?_cons, h, ih]

/-- With no installed package, the selector returns the first candidate
satisfying every constraint. -/
theorem resolve_dependency_none_eq_find? (dep : PackageDependency) (cands : List Package) :
    resolve_dependency dep cands none = cands.find? (satisfiesAll dep) := by
  rw [resolve_dependency_none, matching_candidates_eq, head?_filter_eq_find?]

/-- On a descending-sorted candidate list, the first satisfying candidate is
a maximal satisfying candidate. -/
theorem find?_satisfying_is_max (dep : PackageDependency) (cands : List Package)
    (hs : cands.Pairwise
      (fun p q => compare_versions q.version.string p.version.string ≠ .gt))
    (r : Package) (hr : cands.find? (satisfiesAll dep) = some r) :
    ∀ c ∈ cands, satisfiesAll dep c = true →
      compare_versions c.version.string r.version.string ≠ .gt := by
  induction cands with
  | nil => simp at hr
  | cons x xs ih =>
    rcases List.pairwise_cons.1 hs with ⟨hx_rel, hxs⟩
    cases hx : satisfiesAll dep x with
    | true =>
      rw [List.find?_cons_of_pos _ hx] at hr
      simp only [Option.some.injEq] at hr
      subst hr
      intro c hc _
      rcases List.mem_cons.1 hc with rfl | hcm
      · rw [good_refl compare_versions_good]
        decide
      · exact hx_rel c hcm
    | false =>
      rw [List.find?_cons_of_neg _ (by simp [hx])] at hr
      intro c hc hsat
      rcases List.mem_cons.1 hc with rfl | hcm
      · rw [hx] at hsat; exact absurd hsat (by decide)
      · exact ih hxs hr c hcm hsat

/-- An installed package that is among the matching candidates is returned
unchanged. -/
theorem resolve_dependency_installed (dep : PackageDependency) (cands : List Package)
    (ip : Package) (h1 : ip ∈ cands) (h2 : satisfiesAll dep ip = true) :
    resolve_dependency dep cands (some ip) = some ip := by
  rw [resolve_dependency_some, if_pos]
  rw [matching_candidates_eq]
  exact List.mem_filter.2 ⟨h1, h2⟩

/-- The selector returns `none` exactly when no candidate satisfies every
constraint. -/
theorem resolve_dependency_eq_none_iff (dep : PackageDependency) (cands : List Package)
    (inst : Option Package) :
    resolve_dependency dep cands inst = none ↔
      ∀ c ∈ cands, satisfiesAll dep c = false := by
  have hiff : matching_candidates dep cands = [] ↔
      ∀ c ∈ cands, satisfiesAll dep c = false := by
    rw [matching_candidates_eq, List.filter_eq_nil_iff]
    constructor
    · intro h c hc
      have := h c hc
      simpa using this
    · intro h c hc
      simp [h c hc]
  cases inst with
  | none =>
    rw [resolve_dependency_none, List.head?_eq_none_iff]
    exact hiff
  | some ip =>
    rw [resolve_dependency_some]
    constructor
    · intro h
      by_cases hmem : ip ∈ matching_candidates dep cands
      · rw [if_pos hmem] at h
        exact absurd h (by simp)
      · rw [if_neg hmem] at h
        exact hiff.1 (List.head?_eq_none_iff.1 h)
    · intro h
      have hm : matching_candidates dep cands = [] := hiff.2 h
      rw [hm]
      simp

end Apt

/-! ## Theorems: the worklist engine -/

namespace Cli

theorem runWorklist_nil (i : String → Option String) (c : String → List String)
    (dp : Package → List PackageDependency) (fuel : Nat) (tin : List Package) :
    runWorklist i c dp (fuel + 1) ⟨[], tin⟩ = .done tin := rfl

theorem runWorklist_cons (i : String → Option String) (c : String → List String)
    (dp : Package → List PackageDependency) (fuel : Nat) (dep : PackageDependency)
    (rest : List PackageDependency) (tin : List Package) :
    runWorklist i c dp (fuel + 1) ⟨dep :: rest, tin⟩ =
      match resolve_version (c dep.package.name) dep (i dep.package.name) with
      | none => .fatal dep
      | some v =>
        if (⟨dep.package.name, v⟩ : Package) ∈ tin then
          runWorklist i c dp fuel ⟨rest, tin⟩
        else if i dep.package.name = some v then
          runWorklist i c dp fuel ⟨rest, tin⟩
        else
          runWorklist i c dp fuel
            ⟨rest ++ dp ⟨dep.package.name, v⟩, tin ++ [⟨dep.package.name, v⟩]⟩ := rfl

/-- An unresolvable front dependency aborts the whole run. -/
theorem runWorklist_fatal (i : String → Option String) (c : String → List String)
    (dp : Package → List PackageDependency) (fuel : Nat) (dep : PackageDependency)
    (rest : List PackageDependency) (tin : List Package)
    (hres : resolve_version (c dep.package.name) dep (i dep.package.name) = none) :
    runWorklist i c dp (fuel + 1) ⟨dep :: rest, tin⟩ = .fatal dep := by
  rw [runWorklist_cons, hres]

/-- A front dependency whose resolved version equals the installed version
is dropped: nothing is appended to the install set, nothing is enqueued. -/
theorem runWorklist_skip_installed (i : String → Option String) (c : String → List String)
    (dp : Package → List PackageDependency) (fuel : Nat) (dep : PackageDependency)
    (rest : List PackageDependency) (tin : List Package) (v : String)
    (hres : resolve_version (c dep.package.name) dep (i dep.package.name) = some v)
    (hinst : i dep.package.name = some v) :
    runWorklist i c dp (fuel + 1) ⟨dep :: rest, tin⟩ =
      runWorklist i c dp fuel ⟨rest, tin⟩ := by
  rw [runWorklist_cons, hres]
  dsimp only
  by_cases hmem : (⟨dep.package.name, v⟩ : Package) ∈ tin
  · rw [if_pos hmem]
  · rw [if_neg hmem, if_pos hinst]

/-- The install set stays duplicate-free throughout the run. -/
theorem runWorklist_nodup (i : String → Option String) (c : String → List String)
    (dp : Package → List PackageDependency) :
    ∀ fuel st l, st.to_install.Nodup → runWorklist i c dp fuel st = .done l →
      l.Nodup := by
  intro fuel
  induction fuel with
  | zero =>
    intro st l _ h
    exact absurd h (by simp [runWorklist])
  | succ fuel ih =>
    intro st l hnd h
    obtain ⟨tr, ti⟩ := st
    cases tr with
    | nil =>
      rw [runWorklist_nil] at h
      cases h
      exact hnd
    | cons dep rest =>
      rw [runWorklist_cons] at h
      cases hres : resolve_version (c dep.package.name) dep (i dep.package.name) with
      | none =>
        rw [hres] at h
        simp at h
      | some v =>
        rw [hres] at h
        dsimp only at h
        by_cases hmem : (⟨dep.package.name, v⟩ : Package) ∈ ti
        · rw [if_pos hmem] at h
          exact ih ⟨rest, ti⟩ l hnd h
        · rw [if_neg hmem] at h
          by_cases hinst : i dep.package.name = some v
          · rw [if_pos hinst] at h
            exact ih ⟨rest, ti⟩ l hnd h
          · rw [if_neg hinst] at h
            refine ih ⟨rest ++ dp ⟨dep.package.name, v⟩, ti ++ [⟨dep.package.name, v⟩]⟩ l ?_ h
            simp [List.nodup_append, hnd, hmem]

/-- Every package in the final install set differs, in version, from what
was installed for its name: an installed match is never appended. -/
theorem runWorklist_installed_invariant (i : String → Option String)
    (c : String → List String) (dp : Package → List PackageDependency) :
    ∀ fuel st l, (∀ p ∈ st.to_install, i p.name ≠ some p.version) →
      runWorklist i c dp fuel st = .done l →
      ∀ p ∈ l, i p.name ≠ some p.version := by
  intro fuel
  induction fuel with
  | zero =>
    intro st l _ h
    exact absurd h (by simp [runWorklist])
  | succ fuel ih =>
    intro st l hinv h
    obtain ⟨tr, ti⟩ := st
    cases tr with
    | nil =>
      rw [runWorklist_nil] at h
      cases h
      exact hinv
    | cons dep rest =>
      rw [runWorklist_cons] at h
      cases hres : resolve_version (c dep.package.name) dep (i dep.package.name) with
      | none =>
        rw [hres] at h
        simp at h
      | some v =>
        rw [hres] at h
        dsimp only at h
        by_cases hmem : (⟨dep.package.name, v⟩ : Package) ∈ ti
        · rw [if_pos hmem] at h
          exact ih ⟨rest, ti⟩ l hinv h
        · rw [if_neg hmem] at h
          by_cases hinst : i dep.package.name = some v
          · rw [if_pos hinst] at h
            exact ih ⟨rest, ti⟩ l hinv h
          · rw [if_neg hinst] at h
            refine ih ⟨rest ++ dp ⟨dep.package.name, v⟩, ti ++ [⟨dep.package.name, v⟩]⟩ l ?_ h
            intro p hp
            rcases List.mem_append.1 hp with hp | hp
            · exact hinv p hp
            · rcases List.mem_singleton.1 hp with rfl
              exact hinst

end Cli

/-! ## Claims -/

/-- C1 counterexample: with constraint `EQ 1.09` and the (trivially
descending) candidate list `[1.9]`, the Debian comparator deems the
candidate's version equal to `1.09`, so the claim — which says the `EQ`
relation is decided by the Debian comparator — demands the candidate be
returned; `resolve_dependency`'s `EQ` arm compares version strings with the
derived `PartialEq` (literal string equality) and returns `none` instead. -/
theorem c1_counterexample :
    compare_versions pkg19.version.string "1.09" = .eq ∧
    Apt.resolve_dependency eqDep109 [pkg19] none = none ∧
    Apt.resolve_dependency eqDep109 [pkg19] none ≠ some pkg19 :=
  ⟨by decide, by decide, by decide⟩

/-- C1 (amended): for every dependency and every candidate list sorted in
descending version order, when no installed package is supplied,
`resolve_dependency` returns the first candidate whose version satisfies
every constraint of the dependency — where `Any` accepts every version,
`LT`/`LE`/`GE`/`GT` are decided by the Debian version comparator, and `EQ`
by literal version-string equality — and that first match is a highest
satisfying version. -/
theorem c1_resolve_dependency_first_match (dep : Apt.PackageDependency)
    (cands : List Apt.Package)
    (hs : cands.Pairwise
      (fun p q => compare_versions q.version.string p.version.string ≠ .gt)) :
    Apt.resolve_dependency dep cands none = cands.find? (Apt.satisfiesAll dep) ∧
    ∀ r, Apt.resolve_dependency dep cands none = some r →
      ∀ c ∈ cands, Apt.satisfiesAll dep c = true →
        compare_versions c.version.string r.version.string ≠ .gt := by
  refine ⟨Apt.resolve_dependency_none_eq_find? dep cands, ?_⟩
  intro r hr
  rw [Apt.resolve_dependency_none_eq_find?] at hr
  exact Apt.find?_satisfying_is_max dep cands hs r hr

/-- C1 witness: with relation `Any`, no installed package and the
descending candidates `[2.0, 1.5, 1.0]`, the selector returns `2.0`. -/
theorem c1_witness : Apt.resolve_dependency anyDep demoCands none = some pkg20 := by
  have h := c1_resolve_dependency_first_match anyDep demoCands (by decide)
  rw [h.1]
  decide

/-- C2: if an installed package is supplied and it is among the candidates
that satisfy every constraint of the dependency, `resolve_dependency`
returns the installed package, even when a higher satisfying version exists
in the candidate list. -/
theorem c2_resolve_dependency_prefers_installed (dep : Apt.PackageDependency)
    (cands : List Apt.Package) (installed : Apt.Package)
    (h1 : installed ∈ cands) (h2 : Apt.satisfiesAll dep installed = true) :
    Apt.resolve_dependency dep cands (some installed) = some installed :=
  Apt.resolve_dependency_installed dep cands installed h1 h2

/-- C2 witness: with relation `LT 1.5`, installed `1.0` and candidates
`[2.0, 1.5, 1.0]` the installed `1.0` is returned; with relation `Any` and
installed `1.5` the installed `1.5` is returned although `2.0` exists. -/
theorem c2_witness :
    Apt.resolve_dependency ltDep demoCands (some pkg10) = some pkg10 ∧
    Apt.resolve_dependency anyDep demoCands (some pkg15) = some pkg15 :=
  ⟨c2_resolve_dependency_prefers_installed ltDep demoCands pkg10 (by decide) (by decide),
   c2_resolve_dependency_prefers_installed anyDep demoCands pkg15 (by decide) (by decide)⟩

/-- C3: the dependency selector returns nothing exactly when no candidate
satisfies every constraint of the dependency, and in that case the worklist
engine aborts the entire run with a `fatal` result identifying the offending
dependency — `fatal` carries no install set (no partial install set is
produced) and the loop stops (no retry). -/
theorem c3_unresolvable_dependency_aborts :
    (∀ (dep : Apt.PackageDependency) (cands : List Apt.Package)
       (inst : Option Apt.Package),
       Apt.resolve_dependency dep cands inst = none ↔
         ∀ c ∈ cands, Apt.satisfiesAll dep c = false) ∧
    (∀ (i : String → Option String) (c : String → List String)
       (dp : Cli.Package → List Cli.PackageDependency) (fuel : Nat)
       (dep : Cli.PackageDependency) (rest : List Cli.PackageDependency)
       (tin : List Cli.Package),
       Cli.resolve_version (c dep.package.name) dep (i dep.package.name) = none →
       Cli.runWorklist i c dp (fuel + 1) ⟨dep :: rest, tin⟩ = .fatal dep) :=
  ⟨Apt.resolve_dependency_eq_none_iff,
   fun i c dp fuel dep rest tin h => Cli.runWorklist_fatal i c dp fuel dep rest tin h⟩

/-- C3 witness: no candidate matches `EQ 9.9`, so the selector returns
`none`; a worklist run whose front dependency is unresolvable ends `fatal`
with that dependency. -/
theorem c3_witness :
    Apt.resolve_dependency eqDep99 demoCands none = none ∧
    Cli.runWorklist noInstalled noCands noDeps 1 ⟨[rootDep], []⟩ = .fatal rootDep :=
  ⟨(c3_unresolvable_dependency_aborts.1 eqDep99 demoCands none).2 (by decide),
   c3_unresolvable_dependency_aborts.2 noInstalled noCands noDeps 0 rootDep [] []
     (by decide)⟩

/-- C4: the install set never contains two structurally equal packages —
every run starting from a duplicate-free install set that terminates
normally ends with a duplicate-free install set — and in the diamond
dependency graph `A → B, C`, `B → D`, `C → D` (same version of `D` on both
paths) the final install set contains `D` exactly once. -/
theorem c4_install_set_nodup :
    (∀ (i : String → Option String) (c : String → List String)
       (dp : Cli.Package → List Cli.PackageDependency) (fuel : Nat)
       (st : Cli.WState) (l : List Cli.Package),
       st.to_install.Nodup → Cli.runWorklist i c dp fuel st = .done l → l.Nodup) ∧
    Cli.runWorklist noInstalled dCands dDeps 10 ⟨[depOn "A"], []⟩ =
      .done [pA, pB, pC, pD] ∧
    ([pA, pB, pC, pD] : List Cli.Package).count pD = 1 := by
  refine ⟨fun i c dp => Cli.runWorklist_nodup i c dp, ?_, ?_⟩
  · decide
  · decide

/-- C4 witness: the diamond run's final install set is duplicate-free. -/
theorem c4_witness : ([pA, pB, pC, pD] : List Cli.Package).Nodup :=
  c4_install_set_nodup.1 noInstalled dCands dDeps 10 ⟨[depOn "A"], []⟩
    [pA, pB, pC, pD] (by decide) (by decide)

/-- C5: whenever the package resolved for a dependency equals the
currently-installed package for that name, the worklist engine skips it
entirely — the run continues on the rest of the queue with the install set
unchanged and none of the skipped package's dependencies enqueued — and
consequently no package whose version equals the installed version for its
name is ever appended to the install set during the run. -/
theorem c5_installed_match_skipped :
    (∀ (i : String → Option String) (c : String → List String)
       (dp : Cli.Package → List Cli.PackageDependency) (fuel : Nat)
       (dep : Cli.PackageDependency) (rest : List Cli.PackageDependency)
       (tin : List Cli.Package) (v : String),
       Cli.resolve_version (c dep.package.name) dep (i dep.package.name) = some v →
       i dep.package.name = some v →
       Cli.runWorklist i c dp (fuel + 1) ⟨dep :: rest, tin⟩ =
         Cli.runWorklist i c dp fuel ⟨rest, tin⟩) ∧
    (∀ (i : String → Option String) (c : String → List String)
       (dp : Cli.Package → List Cli.PackageDependency) (fuel : Nat)
       (st : Cli.WState) (l : List Cli.Package),
       (∀ p ∈ st.to_install, i p.name ≠ some p.version) →
       Cli.runWorklist i c dp fuel st = .done l →
       ∀ p ∈ l, i p.name ≠ some p.version) :=
  ⟨fun i c dp fuel dep rest tin v h1 h2 =>
     Cli.runWorklist_skip_installed i c dp fuel dep rest tin v h1 h2,
   fun i c dp => Cli.runWorklist_installed_invariant i c dp⟩

/-- C5 witness: with `B` installed at version `1`, a queue headed by the
dependency on `B = 1` steps to the rest of the queue with the install set
untouched and nothing enqueued, and the final install set never carries an
installed match. -/
theorem c5_witness :
    Cli.runWorklist iInstB dCands dDeps 3 ⟨[depOn "B"], [pA]⟩ =
      Cli.runWorklist iInstB dCands dDeps 2 ⟨[], [pA]⟩ ∧
    ∀ p ∈ ([pA] : List Cli.Package), iInstB p.name ≠ some p.version :=
  ⟨c5_installed_match_skipped.1 iInstB dCands dDeps 2 (depOn "B") [] [pA] "1"
     (by decide) (by decide),
   c5_installed_match_skipped.2 iInstB dCands dDeps 3 ⟨[depOn "B"], [pA]⟩ [pA]
     (by decide) (by decide)⟩

/-- C6: the version comparator is total (for any two version strings the
result is one of `lt`, `eq`, `gt`, oriented under swapping the arguments)
and transitive (in `lt`, in `gt`, and `eq` is a congruence), and on the
concrete Debian inputs: the epoch dominates (`1:1.0 > 2.0`), tilde sorts
below end of string (`1.0~rc1 < 1.0` and `1.0~~ < 1.0~`), and leading zeros
in numeric runs are ignored (`1.09 = 1.9`). -/
theorem c6_compare_versions_total_order :
    (∀ a b : String, compare_versions a b = .lt ∨ compare_versions a b = .eq ∨
       compare_versions a b = .gt) ∧
    (∀ a b : String, compare_versions a b = (compare_versions b a).swap) ∧
    (∀ a b c : String, compare_versions a b = .lt → compare_versions b c = .lt →
       compare_versions a c = .lt) ∧
    (∀ a b c : String, compare_versions a b = .gt → compare_versions b c = .gt →
       compare_versions a c = .gt) ∧
    (∀ (a b c : String) (o : Ordering), compare_versions a b = .eq →
       compare_versions b c = o → compare_versions a c = o) ∧
    compare_versions "1:1.0" "2.0" = .gt ∧
    compare_versions "1.0~rc1" "1.0" = .lt ∧
    compare_versions "1.0~~" "1.0~" = .lt ∧
    compare_versions "1.09" "1.9" = .eq := by
  refine ⟨?_, compare_versions_good.1, compare_versions_good.2.1, ?_,
    compare_versions_good.2.2, by decide, by decide, by decide, by decide⟩
  · intro a b
    cases hv : compare_versions a b
    · exact Or.inl rfl
    · exact Or.inr (Or.inl rfl)
    · exact Or.inr (Or.inr rfl)
  · intro a b c h1 h2
    have hba : compare_versions b a = .lt := by
      rw [compare_versions_good.1 b a, h1]; rfl
    have hcb : compare_versions c b = .lt := by
      rw [compare_versions_good.1 c b, h2]; rfl
    have hca := compare_versions_good.2.1 c b a hcb hba
    rw [compare_versions_good.1 a c, hca]
    rfl

/-- C6 witness: transitivity applied at `1.0~~ < 1.0~ < 1.0`. -/
theorem c6_witness : compare_versions "1.0~~" "1.0" = .lt :=
  c6_compare_versions_total_order.2.2.1 "1.0~~" "1.0~" "1.0" (by decide) (by decide)

/-- C7: if the file named by the last path segment of `package.url` already
exists in the cache directory, `download_package` performs no network fetch
(the state is unchanged and the effect trace is empty) and returns the
package with `filepath` set to that existing file; a fresh download performs
one fetch, writes a temporary file and only then renames it to the target
name; and materializing the same URL a second time afterwards performs no
further fetch — two materializations cost exactly one fetch. -/
theorem c7_download_package_cache (net : String → Bool) (st : Apt.DlState)
    (package : Apt.Package) (url : String) (hurl : package.url = some url) :
    (Apt.lastSegment url ∈ st.files →
       Apt.download_package net st package =
         some (st, { package with filepath := some (Apt.lastSegment url) }, [])) ∧
    (Apt.lastSegment url ∉ st.files → net url = true →
       Apt.download_package net st package =
         some (⟨Apt.lastSegment url :: st.files, st.fetches + 1⟩,
           { package with filepath := some (Apt.lastSegment url) },
           [.fetchUrl url, .writeTemp (Apt.lastSegment url ++ ".tmp"),
            .renameTemp (Apt.lastSegment url ++ ".tmp") (Apt.lastSegment url)]) ∧
       Apt.download_package net ⟨Apt.lastSegment url :: st.files, st.fetches + 1⟩
           package =
         some (⟨Apt.lastSegment url :: st.files, st.fetches + 1⟩,
           { package with filepath := some (Apt.lastSegment url) }, [])) := by
  constructor
  · intro hmem
    simp [Apt.download_package, hurl, hmem]
  · intro hmem hnet
    constructor
    · simp [Apt.download_package, hurl, hmem, hnet]
    · simp [Apt.download_package, hurl]

/-- C7 witness: a URL whose filename is already cached is returned without
any effect. -/
theorem c7_witness :
    Apt.download_package (fun _ => true)
        ⟨[Apt.lastSegment "http://h/p_1.0_amd64.deb"], 3⟩ demoPkgU =
      some (⟨[Apt.lastSegment "http://h/p_1.0_amd64.deb"], 3⟩,
        { demoPkgU with filepath := some (Apt.lastSegment "http://h/p_1.0_amd64.deb") },
        []) :=
  (c7_download_package_cache (fun _ => true)
      ⟨[Apt.lastSegment "http://h/p_1.0_amd64.deb"], 3⟩ demoPkgU
      "http://h/p_1.0_amd64.deb" rfl).1 (List.mem_singleton.2 rfl)

/-- C8: when fetching or parsing the remote package index fails, the
candidate aggregator still returns the local-cache candidates for that
name — the call returns a value rather than failing, so resolution
continues. -/
theorem c8_get_candidates_degrades_gracefully (local_packages : List Apt.Package)
    (e : String) :
    Apt.get_candidates local_packages (.error e) = local_packages := rfl

/-- C9: version constraints produced by the dependency parser never carry an
epoch — every constraint version parsed from a `Depends:` clause contains no
colon, `afterLastColon` really is the text after the last colon, and
versions recovered from cached filenames are likewise epoch-stripped. -/
theorem c9_versions_epoch_stripped :
    (∀ (clause : List Char) (dep : Apt.PackageDependency),
       Apt.parseClause clause = .ok dep →
       ∀ vc ∈ dep.version_constraints, ':' ∉ vc.version.string.data) ∧
    (∀ l : List Char, ':' ∈ l → ∃ pre, l = pre ++ ':' :: afterLastColon l) ∧
    (∀ (filename : String) (v : String),
       Apt.cache_version_of_filename filename = some v → ':' ∉ v.data) := by
  refine ⟨?_, afterLastColon_split, ?_⟩
  · intro clause dep h
    unfold Apt.parseClause at h
    dsimp only at h
    split at h
    · cases h
      intro vc hvc
      rcases List.mem_singleton.1 hvc with rfl
      decide
    · split at h
      · exact absurd h (by simp)
      · split at h
        · exact absurd h (by simp)
        · split at h
          · exact absurd h (by simp)
          · cases h
            intro vc hvc
            rcases List.mem_singleton.1 hvc with rfl
            exact afterLastColon_no_colon _
  · intro filename v h
    unfold Apt.cache_version_of_filename at h
    split at h
    · cases h
      exact afterLastColon_no_colon _
    · exact absurd h (by simp)

/-- C9 witness: parsing `libfoo (>= 1:2.0)` yields the epoch-stripped
constraint version `2.0`, which contains no colon. -/
theorem c9_witness : ':' ∉ ("2.0" : String).data :=
  c9_versions_epoch_stripped.1 (String.data "libfoo (>= 1:2.0)")
    ⟨"libfoo", [⟨⟨"2.0"⟩, .superiorOrEqual⟩]⟩ (by decide)
    ⟨⟨"2.0"⟩, .superiorOrEqual⟩ (by decide)

/-- C10 counterexample: the clause `libfoo (=  2.0)` (doubled space) carries
the recognized relation token `=`, yet the parser panics rather than erring —
the empty version token aborts on the `&raw[0..raw.len() - 1]` slice
(apt.rs line 306) — so an unrecognized relation operator is not the one
metadata-shape violation bypassing the ordinary error-return channel. -/
theorem c10_counterexample :
    (Apt.clauseTokens (String.data "libfoo (=  2.0)"))[1]? = some (String.data "(=") ∧
    Apt.relTok (String.data "(=").tail = some .equal ∧
    Apt.parseClause (String.data "libfoo (=  2.0)") = .panicked ∧
    Apt.parseClause (String.data "libfoo (=  2.0)") ≠ .err :=
  ⟨by decide, by decide, by decide, by decide⟩

/-- C10 (amended): a `Depends:` clause whose version-relation token (after
its leading parenthesis) is none of `<<`, `<=`, `=`, `>=`, `>>` makes the
dependency parser panic — the `panicked` outcome, not the ordinary `err`
error-return channel; a clause whose version token is empty likewise panics;
and these two clause shapes are exactly the ones on which the parser panics
instead of using the error-return channel. -/
theorem c10_metadata_panic_channels :
    (∀ (clause r : List Char), (Apt.clauseTokens clause)[1]? = some r →
       r.tail ∉ [['<', '<'], ['<', '='], ['='], ['>', '='], ['>', '>']] →
       Apt.parseClause clause = .panicked ∧ Apt.parseClause clause ≠ .err) ∧
    (∀ (clause r : List Char), (Apt.clauseTokens clause)[1]? = some r →
       (Apt.clauseTokens clause)[2]? = some [] →
       Apt.parseClause clause = .panicked ∧ Apt.parseClause clause ≠ .err) ∧
    (∀ clause : List Char, Apt.parseClause clause = .panicked →
       ∃ r, (Apt.clauseTokens clause)[1]? = some r ∧
         (Apt.relTok r.tail = none ∨ (Apt.clauseTokens clause)[2]? = some [])) := by
  refine ⟨?_, ?_, ?_⟩
  · intro clause r h1 h2
    have hrel : Apt.relTok r.tail = none := by
      unfold Apt.relTok
      split_ifs with a b c d e
      · exact absurd (by rw [a]; decide) h2
      · exact absurd (by rw [b]; decide) h2
      · exact absurd (by rw [c]; decide) h2
      · exact absurd (by rw [d]; decide) h2
      · exact absurd (by rw [e]; decide) h2
      · rfl
    have hp : Apt.parseClause clause = .panicked := by
      simp only [Apt.parseClause, h1, hrel]
    exact ⟨hp, by rw [hp]; simp⟩
  · intro clause r h1 h3
    cases h2 : Apt.relTok r.tail with
    | none =>
      have hp : Apt.parseClause clause = .panicked := by
        simp only [Apt.parseClause, h1, h2]
      exact ⟨hp, by rw [hp]; simp⟩
    | some rel =>
      have hp : Apt.parseClause clause = .panicked := by
        simp [Apt.parseClause, h1, h2, h3]
      exact ⟨hp, by rw [hp]; simp⟩
  · intro clause h
    cases h1 : (Apt.clauseTokens clause)[1]? with
    | none =>
      simp only [Apt.parseClause, h1] at h
      exact absurd h (by simp)
    | some r =>
      refine ⟨r, rfl, ?_⟩
      simp only [Apt.parseClause, h1] at h
      cases h2 : Apt.relTok r.tail with
      | none => exact Or.inl rfl
      | some rel =>
        simp only [h2] at h
        cases h3 : (Apt.clauseTokens clause)[2]? with
        | none =>
          simp only [h3] at h
          exact absurd h (by simp)
        | some raw =>
          simp only [h3] at h
          by_cases hraw : raw = []
          · exact Or.inr (by rw [hraw])
          · rw [if_neg hraw] at h
            exact absurd h (by simp)

/-- C10 witness: the unrecognized relation `??` panics the parser, and so
does a recognized relation followed by an empty version token. -/
theorem c10_witness :
    (Apt.parseClause (String.data "libfoo (?? 1.0)") = .panicked ∧
      Apt.parseClause (String.data "libfoo (?? 1.0)") ≠ .err) ∧
    Apt.parseClause (String.data "libbar (>=  1.0)") = .panicked :=
  ⟨c10_metadata_panic_channels.1 (String.data "libfoo (?? 1.0)") (String.data "(??")
     (by decide) (by decide),
   (c10_metadata_panic_channels.2.1 (String.data "libbar (>=  1.0)")
     (String.data "(>=") (by decide) (by decide)).1⟩

end AptDowngrade
